import Mathlib

/-!
Verification development for the `funcdiff` tool (src/main.go): a shallow
embedding of its declaration-diff engine, body normalization, line
extraction, changed-function file naming and Markdown report rendering,
together with theorems settling the specification claims.

Go strings are modelled as Lean `String` (lists of characters), Go `int`
as `Int`, Go maps (`FuncSet`, the per-package stats map) as association
lists in which a lookup returns the first matching entry.
-/

namespace FuncDiff

/- ## Go string operations, modelled on character lists -/

/-- Worker for `strings.ReplaceAll`: scans left to right, replacing each
(non-overlapping) occurrence of `pat` by `rep`.  The fuel argument makes the
recursion structural; with fuel at least the length of the input (as used by
`replaceAll` below) the fuel is never exhausted. -/
def replaceAllFuel (pat rep : List Char) : Nat → List Char → List Char
  | _, [] => []
  | 0, _ => []
  | fuel + 1, c :: rest =>
    if pat ≠ [] ∧ pat <+: (c :: rest) then
      rep ++ replaceAllFuel pat rep fuel (rest.drop (pat.length - 1))
    else
      c :: replaceAllFuel pat rep fuel rest

/-- `strings.ReplaceAll` on character lists. -/
def replaceAll (pat rep s : List Char) : List Char :=
  replaceAllFuel pat rep s.length s

/-- `strings.ReplaceAll(s, pat, rep)`. -/
def goReplaceAll (s pat rep : String) : String :=
  ⟨replaceAll pat.data rep.data s.data⟩

/-- `strings.Split(s, "\n")`: the list of lines of `s` (a separator-split,
so the empty string yields one empty line). -/
def splitLines : List Char → List (List Char)
  | [] => [[]]
  | c :: rest =>
    if c = '\n' then
      [] :: splitLines rest
    else
      match splitLines rest with
      | [] => [[c]]
      | l :: ls => (c :: l) :: ls

/-- `strings.Join(lines, "\n")`. -/
def joinLines : List (List Char) → List Char
  | [] => []
  | [l] => l
  | l :: ls => l ++ '\n' :: joinLines ls

/-- A character of the cutset `" \t"` used by `strings.TrimRight`. -/
def isWsTab (c : Char) : Bool :=
  c == ' ' || c == '\t'

/-- `strings.TrimRight(l, " \t")`: drop trailing spaces and tabs. -/
def trimRightWsTab (l : List Char) : List Char :=
  (l.reverse.dropWhile isWsTab).reverse

/-- Go's `unicode.IsSpace` (the character set behind `strings.TrimSpace`). -/
def goIsSpace (c : Char) : Bool :=
  c == '\t' || c == '\n' || c == '\x0b' || c == '\x0c' || c == '\r' || c == ' ' ||
  c == '\u0085' || c == '\u00a0' || c == '\u1680' ||
  (decide ('\u2000' ≤ c) && decide (c ≤ '\u200a')) ||
  c == '\u2028' || c == '\u2029' || c == '\u202f' || c == '\u205f' || c == '\u3000'

/-- `strings.TrimSpace(l) == ""`: the line consists of whitespace only. -/
def isBlankLine (l : List Char) : Bool :=
  l.all goIsSpace

/- ## normalizeBody (main.go lines 732-754) -/

/-- The two line-ending replacements of `normalizeBody`:
`strings.ReplaceAll(s, "\r\n", "\n")` followed by
`strings.ReplaceAll(s, "\r", "\n")`. -/
def unifyEol (s : List Char) : List Char :=
  replaceAll (['\r']) (['\n']) (replaceAll (['\r', '\n']) (['\n']) s)

/-- The leading-blank-line drop loop of `normalizeBody`. -/
def dropLeadingBlank (ls : List (List Char)) : List (List Char) :=
  ls.dropWhile isBlankLine

/-- The trailing-blank-line drop loop of `normalizeBody`. -/
def dropTrailingBlank (ls : List (List Char)) : List (List Char) :=
  (ls.reverse.dropWhile isBlankLine).reverse

/-- The line pipeline of `normalizeBody` before the trims of the outer blank
lines: unify line endings, split into lines, trim each line's trailing
spaces/tabs. -/
def wsEolLines (s : List Char) : List (List Char) :=
  (splitLines (unifyEol s)).map trimRightWsTab

/-- The full line pipeline of `normalizeBody`. -/
def normalizeLines (s : List Char) : List (List Char) :=
  dropTrailingBlank (dropLeadingBlank (wsEolLines s))

/-- `normalizeBody` (main.go lines 732-754): unify line endings to LF, trim
trailing spaces/tabs from every line, drop leading and trailing blank lines,
join with LF. -/
def normalizeBody (s : String) : String :=
  ⟨joinLines (normalizeLines s.data)⟩

/-- The claim-side notion "identical except for trailing whitespace on lines
and line-ending style": both texts agree after line-ending unification and
per-line trailing-whitespace trimming (no outer blank-line trimming). -/
def wsEolNormalize (s : String) : String :=
  ⟨joinLines (wsEolLines s.data)⟩

/- ## extractLines (main.go lines 493-511) -/

/-- `if startLine < 1 { startLine = 1 }`. -/
def clampStart (s : Int) : Int :=
  if s < 1 then 1 else s

/-- `if endLine > len(lines) { endLine = len(lines) }`. -/
def clampEnd (e : Int) (n : Nat) : Int :=
  if e > (n : Int) then (n : Int) else e

/-- `extractLines` (main.go lines 493-511): the text of lines
`[startLine, endLine]` (1-based, inclusive) of `src`, with `startLine`
clamped up to 1, `endLine` clamped down to the number of lines, and the
empty string when the clamped range is empty. -/
def extractLines (src : String) (startLine endLine : Int) : String :=
  if (splitLines src.data).length = 0 then ""
  else if clampStart startLine > clampEnd endLine (splitLines src.data).length then ""
  else
    ⟨joinLines (((splitLines src.data).drop (clampStart startLine - 1).toNat).take
      (clampEnd endLine (splitLines src.data).length - (clampStart startLine - 1)).toNat)⟩

/- ## Data model (main.go lines 19-43) -/

/-- `struct FuncInfo`: one parsed function or method declaration. -/
structure FuncInfo where
  Package : String
  File : String
  Name : String
  Receiver : String
  Signature : String
  Exported : Bool
  StartLine : Int
  EndLine : Int
  LineCount : Int
deriving DecidableEq, Repr

/-- `struct FuncKey`: the identity key of a declaration. -/
structure FuncKey where
  Package : String
  Receiver : String
  Name : String
deriving DecidableEq, Repr

/-- The key built from a record's own fields, as `collectFuncs` builds it
(main.go lines 203-207). -/
def keyOf (i : FuncInfo) : FuncKey :=
  ⟨i.Package, i.Receiver, i.Name⟩

/-- `FuncSet`: a Go map from `FuncKey` to `FuncInfo`, modelled as an
association list. -/
abbrev FuncSet := List (FuncKey × FuncInfo)

/-- Map read `set[key]`: first matching entry. -/
def lookupFS : FuncSet → FuncKey → Option FuncInfo
  | [], _ => none
  | (k', i) :: rest, k => if k' = k then some i else lookupFS rest k

/-- Well-formedness of a `FuncSet` as built by `collectFuncs`: each entry is
keyed by its record's own (package, receiver, name) triple, and keys are
unique (a Go map cannot hold a key twice). -/
def FSWF (s : FuncSet) : Prop :=
  (∀ kv ∈ s, kv.1 = keyOf kv.2) ∧ (s.map (fun kv => kv.1)).Nodup

instance (s : FuncSet) : Decidable (FSWF s) := by
  unfold FSWF
  infer_instance

/-- `struct PackageStats`. -/
structure PackageStats where
  New : Int
  Removed : Int
  Changed : Int
deriving DecidableEq, Repr

/-- `struct DiffResult`. -/
structure DiffResult where
  NewFuncs : List FuncInfo
  RemovedFuncs : List FuncInfo
  ChangedFuncs : List (FuncInfo × FuncInfo)
  FromTotal : Nat
  ToTotal : Nat
  PkgStats : List (String × PackageStats)
deriving DecidableEq, Repr

/-- The change test of `diffFuncs` (main.go lines 340-343): any of
signature, file, startLine, endLine differs. -/
def isChangedPair (f t : FuncInfo) : Bool :=
  decide (f.Signature ≠ t.Signature ∨ f.File ≠ t.File ∨
    f.StartLine ≠ t.StartLine ∨ f.EndLine ≠ t.EndLine)

/-- The `getStats` helper of `diffFuncs` followed by a counter update:
update the entry of `pkg` (creating a zero entry if absent) with `f`. -/
def bumpStats : List (String × PackageStats) → String →
    (PackageStats → PackageStats) → List (String × PackageStats)
  | [], pkg, f => [(pkg, f ⟨0, 0, 0⟩)]
  | (p, s) :: rest, pkg, f =>
    if p = pkg then (p, f s) :: rest else (p, s) :: bumpStats rest pkg f

/-- Map read on the per-package stats map. -/
def lookupStats : List (String × PackageStats) → String → Option PackageStats
  | [], _ => none
  | (p, s) :: rest, q => if p = q then some s else lookupStats rest q

/-- The stats recorded for a package (zero when the package is absent). -/
def statOf (m : List (String × PackageStats)) (p : String) : PackageStats :=
  (lookupStats m p).getD ⟨0, 0, 0⟩

/-- Sum of one counter over all entries of the stats map. -/
def sumBy (g : PackageStats → Int) (m : List (String × PackageStats)) : Int :=
  (m.map (fun e => g e.2)).sum

/-- Body of the first loop of `diffFuncs` (main.go lines 331-347): classify
one `from`-side entry as new, changed or unchanged. -/
def diffStep1 (toSet : FuncSet) (r : DiffResult) (kv : FuncKey × FuncInfo) : DiffResult :=
  match lookupFS toSet kv.1 with
  | none =>
    { r with
      NewFuncs := r.NewFuncs ++ [kv.2]
      PkgStats := bumpStats r.PkgStats kv.2.Package
        (fun s => { s with New := s.New + 1 }) }
  | some toInfo =>
    if isChangedPair kv.2 toInfo then
      { r with
        ChangedFuncs := r.ChangedFuncs ++ [(kv.2, toInfo)]
        PkgStats := bumpStats r.PkgStats kv.2.Package
          (fun s => { s with Changed := s.Changed + 1 }) }
    else r

/-- Body of the second loop of `diffFuncs` (main.go lines 350-355): classify
one `to`-side entry as removed when its key is absent from `from`. -/
def diffStep2 (fromSet : FuncSet) (r : DiffResult) (kv : FuncKey × FuncInfo) : DiffResult :=
  match lookupFS fromSet kv.1 with
  | none =>
    { r with
      RemovedFuncs := r.RemovedFuncs ++ [kv.2]
      PkgStats := bumpStats r.PkgStats kv.2.Package
        (fun s => { s with Removed := s.Removed + 1 }) }
  | some _ => r

/-- `diffFuncs` (main.go lines 312-358). -/
def diffFuncs (fromSet toSet : FuncSet) : DiffResult :=
  toSet.foldl (diffStep2 fromSet)
    (fromSet.foldl (diffStep1 toSet)
      { NewFuncs := []
        RemovedFuncs := []
        ChangedFuncs := []
        FromTotal := fromSet.length
        ToTotal := toSet.length
        PkgStats := [] })

/-- The `from`-side entries whose key is absent from `toSet` — the contents
of `NewFuncs` (proved below). -/
def newList (fromSet toSet : FuncSet) : List FuncInfo :=
  (fromSet.filter (fun kv => (lookupFS toSet kv.1).isNone)).map (fun kv => kv.2)

/-- The pairs of entries present on both sides with a changed field — the
contents of `ChangedFuncs` (proved below). -/
def changedList (fromSet toSet : FuncSet) : List (FuncInfo × FuncInfo) :=
  fromSet.filterMap (fun kv =>
    match lookupFS toSet kv.1 with
    | none => none
    | some ti => if isChangedPair kv.2 ti then some (kv.2, ti) else none)

/-- The `to`-side entries whose key is absent from `fromSet` — the contents
of `RemovedFuncs` (proved below). -/
def removedList (fromSet toSet : FuncSet) : List FuncInfo :=
  (toSet.filter (fun kv => (lookupFS fromSet kv.1).isNone)).map (fun kv => kv.2)

/-- A key counted as new by the diff: key of a record in `NewFuncs`. -/
def inNewKeys (fromSet toSet : FuncSet) (k : FuncKey) : Prop :=
  ∃ j ∈ (diffFuncs fromSet toSet).NewFuncs, keyOf j = k

/-- A key counted as removed by the diff: key of a record in `RemovedFuncs`. -/
def inRemovedKeys (fromSet toSet : FuncSet) (k : FuncKey) : Prop :=
  ∃ j ∈ (diffFuncs fromSet toSet).RemovedFuncs, keyOf j = k

/-- A key counted as changed by the diff: key of the from-side record of a
pair in `ChangedFuncs`. -/
def inChangedKeys (fromSet toSet : FuncSet) (k : FuncKey) : Prop :=
  ∃ pr ∈ (diffFuncs fromSet toSet).ChangedFuncs, keyOf pr.1 = k

/-- A key that is unchanged: present on both sides with all four
change-sensitive fields equal (dropped from all diff output). -/
def unchangedKey (fromSet toSet : FuncSet) (k : FuncKey) : Prop :=
  ∃ i ti, lookupFS fromSet k = some i ∧ lookupFS toSet k = some ti ∧
    isChangedPair i ti = false

/-- The relation a diff result's per-package stats map keeps with its three
classification lists: each package's counters count the records of that
package (new and changed keyed by the from-side record's package — changed
pairs by their first component — removed by the stored to-side record's
package), the counters summed over all entries give the class totals, and
the map holds each package at most once. -/
def statsInvariant (r : DiffResult) : Prop :=
  (∀ p, (statOf r.PkgStats p).New =
    ((r.NewFuncs.filter (fun i => i.Package == p)).length : Int)) ∧
  (∀ p, (statOf r.PkgStats p).Removed =
    ((r.RemovedFuncs.filter (fun i => i.Package == p)).length : Int)) ∧
  (∀ p, (statOf r.PkgStats p).Changed =
    ((r.ChangedFuncs.filter (fun pr => pr.1.Package == p)).length : Int)) ∧
  sumBy (fun s => s.New) r.PkgStats = (r.NewFuncs.length : Int) ∧
  sumBy (fun s => s.Removed) r.PkgStats = (r.RemovedFuncs.length : Int) ∧
  sumBy (fun s => s.Changed) r.PkgStats = (r.ChangedFuncs.length : Int) ∧
  (r.PkgStats.map (fun e => e.1)).Nodup

/- ## Report renderer (main.go lines 360-730) -/

/-- `changedFuncFilenameWithRecv` (main.go lines 685-693): base artifact
file name from the sanitized file path, the receiver with `*` replaced by
`ptr` (when present), and the declaration name. -/
def changedFuncFilenameWithRecv (info : FuncInfo) : String :=
  if info.Receiver ≠ "" then
    goReplaceAll (goReplaceAll info.File ("/") ("_")) ("\\") ("_") ++ "__" ++
      goReplaceAll info.Receiver ("*") ("ptr") ++ "__" ++ info.Name ++ ".md"
  else
    goReplaceAll (goReplaceAll info.File ("/") ("_")) ("\\") ("_") ++ "__" ++
      info.Name ++ ".md"

/-- The identical-body test of `writeChangedFuncFile` (main.go line 621):
the normalized from-side body is nonempty and equal to the normalized
to-side body.  The identical-body callout is emitted in the artifact
exactly when this flag is true. -/
def isIdenticalBody (fromBody toBody : String) : Bool :=
  decide (normalizeBody fromBody ≠ "") &&
    decide (normalizeBody fromBody = normalizeBody toBody)

/-- The base file name written by `writeChangedFuncFile` (main.go lines
623-629): the `changedFuncFilenameWithRecv` name, with the `identical_`
prefix when the bodies are identical after normalization. -/
def changedFileBaseName (fromInfo : FuncInfo) (fromBody toBody : String) : String :=
  if isIdenticalBody fromBody toBody then
    "identical_" ++ changedFuncFilenameWithRecv fromInfo
  else
    changedFuncFilenameWithRecv fromInfo

/-- Body retrieval of `writeChangedFuncFile` (main.go lines 610-617): the
snapshot provider `gitShow` is an oracle from (ref, path) to file contents;
a failed retrieval leaves the body empty. -/
def retrievedBody (gitShow : String → String → Option String)
    (ref : String) (info : FuncInfo) : String :=
  match gitShow ref info.File with
  | some src => extractLines src info.StartLine info.EndLine
  | none => ""

/-- The name under which `writeChangedFuncFile` (main.go lines 601-683)
writes one changed pair's artifact. -/
def writeChangedFuncFileName (gitShow : String → String → Option String)
    (fromRef toRef : String) (fromInfo toInfo : FuncInfo) : String :=
  changedFileBaseName fromInfo
    (retrievedBody gitShow fromRef fromInfo)
    (retrievedBody gitShow toRef toInfo)

/-- `writeAllChangedFuncFiles` (main.go lines 695-718), reduced to the list
of base file names it writes. -/
def writeAllChangedFuncFileNames (gitShow : String → String → Option String)
    (outDir fromRef toRef : String) (changed : List (FuncInfo × FuncInfo)) : List String :=
  if outDir = "" then []
  else changed.map (fun pr => writeChangedFuncFileName gitShow fromRef toRef pr.1 pr.2)

/-- Insertion step of a string sort (`sort.Strings`). -/
def insertStr (x : String) : List String → List String
  | [] => [x]
  | y :: ys => if y < x then y :: insertStr x ys else x :: y :: ys

/-- `sort.Strings`: ascending lexicographic sort. -/
def sortStrings (l : List String) : List String :=
  l.foldr insertStr []

/-- The receiver-then-name comparator of `printFuncListByPackage`
(main.go lines 462-467). -/
def funcLess (a b : FuncInfo) : Bool :=
  if a.Receiver = b.Receiver then decide (a.Name < b.Name)
  else decide (a.Receiver < b.Receiver)

/-- Insertion step of the per-package entry sort. -/
def insertFunc (x : FuncInfo) : List FuncInfo → List FuncInfo
  | [] => [x]
  | y :: ys => if funcLess y x then y :: insertFunc x ys else x :: y :: ys

/-- `sort.Slice` with `funcLess`. -/
def sortFuncs (l : List FuncInfo) : List FuncInfo :=
  l.foldr insertFunc []

/-- The qualified name shown in listings: `(recv).Name` or `Name`. -/
def qualifiedName (f : FuncInfo) : String :=
  if f.Receiver ≠ "" then "(" ++ f.Receiver ++ ")." ++ f.Name else f.Name

/-- One listing entry of `printFuncListByPackage` (main.go lines 469-478). -/
def funcEntryLines (f : FuncInfo) : String :=
  "  - `" ++ qualifiedName f ++ "`\n" ++
  "    - signature: `" ++ f.Signature ++ "`\n" ++
  "    - file: `" ++ f.File ++ "` (lines " ++ toString f.StartLine ++ "–" ++
    toString f.EndLine ++ ", " ++ toString f.LineCount ++ " LOC)\n"

/-- `printFuncListByPackage` (main.go lines 443-481): group by package,
packages sorted lexicographically, entries sorted by receiver then name. -/
def printFuncListByPackage (funcs : List FuncInfo) : String :=
  String.join ((sortStrings ((funcs.map (fun f => f.Package)).dedup)).map (fun pkg =>
    "- `" ++ pkg ++ "`\n" ++
    String.join ((sortFuncs (funcs.filter (fun f => f.Package == pkg))).map
      funcEntryLines) ++ "\n"))

/-- `addChangedFilesIndex` (main.go lines 720-730). -/
def addChangedFilesIndex (outDir : String) (files : List String) : String :=
  if outDir = "" ∨ files.length = 0 then ""
  else
    "Per-function reports (Markdown files) written to `" ++ outDir ++ "`:\n\n" ++
    String.join ((sortStrings files).map (fun f =>
      "- `" ++ outDir ++ "/" ++ f ++ "`\n")) ++ "\n"

/-- Header, summary and per-package table of `buildMarkdownReport`
(main.go lines 365-392). -/
def reportBase (fromRef toRef : String) (diff : DiffResult) : String :=
  "### Function Diff: `" ++ fromRef ++ "` → `" ++ toRef ++ "`\n\n" ++
  ("#### Summary\n" ++
   "- Total functions in `" ++ fromRef ++ "`: " ++ toString diff.FromTotal ++ "\n" ++
   "- Total functions in `" ++ toRef ++ "`: " ++ toString diff.ToTotal ++ "\n" ++
   "\n" ++
   "- New functions in `" ++ fromRef ++ "` only: " ++
     toString diff.NewFuncs.length ++ "\n" ++
   "- Removed functions (only in `" ++ toRef ++ "`): " ++
     toString diff.RemovedFuncs.length ++ "\n" ++
   "- Changed functions: " ++ toString diff.ChangedFuncs.length ++ "\n\n") ++
  ("#### High-Level Changes by Package\n\n" ++
   "| Package | New | Removed | Changed |\n" ++
   "|---------|-----|---------|---------|\n") ++
  String.join ((sortStrings (diff.PkgStats.map (fun e => e.1))).map (fun pkg =>
    "| `" ++ pkg ++ "` | " ++ toString (statOf diff.PkgStats pkg).New ++ " | " ++
    toString (statOf diff.PkgStats pkg).Removed ++ " | " ++
    toString (statOf diff.PkgStats pkg).Changed ++ " |\n")) ++
  "\n"

/-- The changed-functions fallback listing of `buildMarkdownReport`
(main.go lines 427-437), used when no output directory is set. -/
def changedFallbackListing (changed : List (FuncInfo × FuncInfo)) : String :=
  String.join (changed.map (fun pr =>
    "- `" ++ pr.1.File ++ "`: `" ++ qualifiedName pr.1 ++ "`\n")) ++ "\n"

/-- Sections of `buildMarkdownReport` after the summary and table
(main.go lines 394-438). -/
def reportRest (gitShow : String → String → Option String)
    (fromRef toRef : String) (diff : DiffResult)
    (summaryOnly : Bool) (outDir : String) : String :=
  if summaryOnly then
    if outDir ≠ "" then
      addChangedFilesIndex outDir
        (writeAllChangedFuncFileNames gitShow outDir fromRef toRef diff.ChangedFuncs)
    else ""
  else
    ("#### New Functions in `" ++ fromRef ++ "` (not in `" ++ toRef ++ "`)\n\n" ++
     (if diff.NewFuncs.length = 0 then "_None_\n\n"
      else printFuncListByPackage diff.NewFuncs)) ++
    ("#### Removed Functions (only in `" ++ toRef ++ "`)\n\n" ++
     (if diff.RemovedFuncs.length = 0 then "_None_\n\n"
      else printFuncListByPackage diff.RemovedFuncs)) ++
    ("#### Changed Functions\n\n" ++
     (if diff.ChangedFuncs.length = 0 then "_None_\n\n"
      else if outDir ≠ "" then
        addChangedFilesIndex outDir
          (writeAllChangedFuncFileNames gitShow outDir fromRef toRef diff.ChangedFuncs)
      else changedFallbackListing diff.ChangedFuncs))

/-- `buildMarkdownReport` (main.go lines 360-441), as a pure function of a
snapshot-provider oracle: diff the two inventories and render the summary
document. -/
def buildMarkdownReport (gitShow : String → String → Option String)
    (fromRef toRef : String) (fromFuncs toFuncs : FuncSet)
    (summaryOnly : Bool) (outDir : String) : String :=
  reportBase fromRef toRef (diffFuncs fromFuncs toFuncs) ++
    reportRest gitShow fromRef toRef (diffFuncs fromFuncs toFuncs) summaryOnly outDir

/- ## Lemmas about the string helpers -/

theorem replaceAllFuel_nil (pat rep : List Char) (fuel : Nat) :
    replaceAllFuel pat rep fuel [] = [] := by
  cases fuel <;> rfl

theorem replaceAllFuel_cons (pat rep : List Char) (fuel : Nat) (c : Char) (rest : List Char) :
    replaceAllFuel pat rep (fuel + 1) (c :: rest) =
      if pat ≠ [] ∧ pat <+: (c :: rest) then
        rep ++ replaceAllFuel pat rep fuel (rest.drop (pat.length - 1))
      else
        c :: replaceAllFuel pat rep fuel rest := by
  rfl

theorem cr_not_mem_replaceAllFuel (fuel : Nat) (s : List Char) :
    '\r' ∉ replaceAllFuel (['\r']) (['\n']) fuel s := by
  induction fuel generalizing s with
  | zero => cases s <;> simp [replaceAllFuel]
  | succ n ih =>
    cases s with
    | nil => simp [replaceAllFuel]
    | cons c rest =>
      rw [replaceAllFuel_cons]
      split
      · simpa using ih rest
      · rename_i h
        intro hmem
        rcases List.mem_cons.mp hmem with rfl | hmem
        · exact h ⟨by simp, by simp [List.prefix_cons_inj]⟩
        · exact ih rest hmem

theorem replaceAllFuel_eq_self_of_cr_head (pt rep : List Char) (fuel : Nat) (s : List Char)
    (hfuel : s.length ≤ fuel) (hcr : '\r' ∉ s) :
    replaceAllFuel ('\r' :: pt) rep fuel s = s := by
  induction fuel generalizing s with
  | zero =>
    cases s with
    | nil => rfl
    | cons c rest => simp at hfuel
  | succ n ih =>
    cases s with
    | nil => rfl
    | cons c rest =>
      rw [replaceAllFuel_cons]
      rw [if_neg]
      · rw [ih rest (by simpa using Nat.le_of_succ_le_succ hfuel)
          (fun h => hcr (List.mem_cons_of_mem c h))]
      · rintro ⟨-, hpre⟩
        rcases List.cons_prefix_cons.mp hpre with ⟨rfl, -⟩
        exact hcr (List.mem_cons_self _ _)

theorem cr_not_mem_unifyEol (s : List Char) : '\r' ∉ unifyEol s :=
  cr_not_mem_replaceAllFuel _ _

theorem unifyEol_eq_self (s : List Char) (hcr : '\r' ∉ s) : unifyEol s = s := by
  unfold unifyEol replaceAll
  rw [replaceAllFuel_eq_self_of_cr_head _ _ _ _ le_rfl hcr,
    replaceAllFuel_eq_self_of_cr_head _ _ _ _ le_rfl hcr]

theorem splitLines_ne_nil (s : List Char) : splitLines s ≠ [] := by
  cases s with
  | nil => simp [splitLines]
  | cons c rest =>
    rw [splitLines]
    split
    · simp
    · split <;> simp

theorem mem_of_mem_splitLines {s : List Char} {l : List Char} {a : Char}
    (hl : l ∈ splitLines s) (ha : a ∈ l) : a ∈ s := by
  induction s generalizing l with
  | nil =>
    simp [splitLines] at hl
    subst hl
    simp at ha
  | cons c rest ih =>
    rw [splitLines] at hl
    by_cases hc : c = '\n'
    · rw [if_pos hc] at hl
      rcases List.mem_cons.mp hl with rfl | hl
      · simp at ha
      · exact List.mem_cons_of_mem c (ih hl ha)
    · rw [if_neg hc] at hl
      rcases hms : splitLines rest with - | ⟨m, ms⟩
      · exact absurd hms (splitLines_ne_nil rest)
      · rw [hms] at hl
        rcases List.mem_cons.mp hl with rfl | hl
        · rcases List.mem_cons.mp ha with rfl | ha
          · exact List.mem_cons_self _ _
          · exact List.mem_cons_of_mem c (ih (hms ▸ List.mem_cons_self m ms) ha)
        · exact List.mem_cons_of_mem c (ih (hms ▸ List.mem_cons_of_mem m hl) ha)

theorem newline_not_mem_of_mem_splitLines {s l : List Char}
    (hl : l ∈ splitLines s) : '\n' ∉ l := by
  induction s generalizing l with
  | nil =>
    simp [splitLines] at hl
    subst hl
    simp
  | cons c rest ih =>
    rw [splitLines] at hl
    by_cases hc : c = '\n'
    · rw [if_pos hc] at hl
      rcases List.mem_cons.mp hl with rfl | hl
      · simp
      · exact ih hl
    · rw [if_neg hc] at hl
      rcases hms : splitLines rest with - | ⟨m, ms⟩
      · exact absurd hms (splitLines_ne_nil rest)
      · rw [hms] at hl
        rcases List.mem_cons.mp hl with rfl | hl
        · intro hmem
          rcases List.mem_cons.mp hmem with h | h
          · exact hc h.symm
          · exact ih (hms ▸ List.mem_cons_self m ms) h
        · exact ih (hms ▸ List.mem_cons_of_mem m hl)

theorem splitLines_of_no_newline {l : List Char} (h : '\n' ∉ l) :
    splitLines l = [l] := by
  induction l with
  | nil => rfl
  | cons c rest ih =>
    rw [splitLines, if_neg (fun hc => h (by rw [← hc]; exact List.mem_cons_self c rest)),
      ih (fun hm => h (List.mem_cons_of_mem c hm))]

theorem splitLines_append_newline {l : List Char} (t : List Char) (h : '\n' ∉ l) :
    splitLines (l ++ '\n' :: t) = l :: splitLines t := by
  induction l with
  | nil => simp [splitLines]
  | cons c rest ih =>
    have hc : c ≠ '\n' := fun hc => h (hc ▸ List.mem_cons_self c rest)
    rw [List.cons_append, splitLines, if_neg hc,
      ih (fun hm => h (List.mem_cons_of_mem c hm))]

theorem joinLines_cons (l : List Char) (m : List Char) (ms : List (List Char)) :
    joinLines (l :: m :: ms) = l ++ '\n' :: joinLines (m :: ms) := by
  rfl

theorem splitLines_joinLines {ls : List (List Char)} (hne : ls ≠ [])
    (hnl : ∀ l ∈ ls, '\n' ∉ l) : splitLines (joinLines ls) = ls := by
  induction ls with
  | nil => exact absurd rfl hne
  | cons l rest ih =>
    cases rest with
    | nil => exact splitLines_of_no_newline (hnl l (List.mem_cons_self _ _))
    | cons m ms =>
      rw [joinLines_cons,
        splitLines_append_newline _ (hnl l (List.mem_cons_self _ _)),
        ih (by simp) (fun x hx => hnl x (List.mem_cons_of_mem l hx))]

theorem mem_joinLines {ls : List (List Char)} {a : Char} (ha : a ∈ joinLines ls) :
    a = '\n' ∨ ∃ l ∈ ls, a ∈ l := by
  induction ls with
  | nil => simp [joinLines] at ha
  | cons l rest ih =>
    cases rest with
    | nil =>
      right
      exact ⟨l, List.mem_cons_self _ _, ha⟩
    | cons m ms =>
      rw [joinLines_cons] at ha
      rcases List.mem_append.mp ha with h | h
      · exact Or.inr ⟨l, List.mem_cons_self _ _, h⟩
      · rcases List.mem_cons.mp h with rfl | h
        · exact Or.inl rfl
        · rcases ih h with h | ⟨x, hx, hax⟩
          · exact Or.inl h
          · exact Or.inr ⟨x, List.mem_cons_of_mem l hx, hax⟩

theorem dropWhile_dropWhile (p : α → Bool) (l : List α) :
    (l.dropWhile p).dropWhile p = l.dropWhile p := by
  induction l with
  | nil => rfl
  | cons c rest ih =>
    by_cases h : p c
    · rw [List.dropWhile_cons_of_pos h, ih]
    · rw [List.dropWhile_cons_of_neg (by simpa using h),
        List.dropWhile_cons_of_neg (by simpa using h)]

theorem dropWhile_head_false {p : α → Bool} {l : List α} {a : α} {t : List α}
    (h : l.dropWhile p = a :: t) : p a = false := by
  induction l with
  | nil => simp at h
  | cons c rest ih =>
    by_cases hc : p c
    · rw [List.dropWhile_cons_of_pos hc] at h
      exact ih h
    · rw [List.dropWhile_cons_of_neg (by simpa using hc)] at h
      rcases h with ⟨rfl, -⟩
      simpa using hc

theorem dropWhile_eq_self_of_head {p : α → Bool} {l : List α} {a : α}
    (hh : l.head? = some a) (hp : p a = false) : l.dropWhile p = l := by
  cases l with
  | nil => rfl
  | cons c rest =>
    rcases Option.some.inj hh with rfl
    rw [List.dropWhile_cons_of_neg (by simp [hp])]

theorem mem_of_mem_dropWhile {p : α → Bool} {l : List α} {a : α}
    (h : a ∈ l.dropWhile p) : a ∈ l :=
  (List.dropWhile_sublist p).mem h

theorem trimRightWsTab_idem (l : List Char) :
    trimRightWsTab (trimRightWsTab l) = trimRightWsTab l := by
  unfold trimRightWsTab
  rw [List.reverse_reverse, dropWhile_dropWhile]

theorem mem_of_mem_trimRightWsTab {l : List Char} {a : Char}
    (h : a ∈ trimRightWsTab l) : a ∈ l := by
  unfold trimRightWsTab at h
  rw [List.mem_reverse] at h
  exact List.mem_reverse.mp (mem_of_mem_dropWhile h)

theorem dropTrailingBlank_idem (ls : List (List Char)) :
    dropTrailingBlank (dropTrailingBlank ls) = dropTrailingBlank ls := by
  unfold dropTrailingBlank
  rw [List.reverse_reverse, dropWhile_dropWhile]

theorem dropTrailingBlank_prefixOf (ls : List (List Char)) :
    dropTrailingBlank ls <+: ls := by
  unfold dropTrailingBlank
  rw [← List.reverse_suffix]
  simpa using List.dropWhile_suffix isBlankLine

theorem mem_of_mem_dropTrailingBlank {ls : List (List Char)} {l : List Char}
    (h : l ∈ dropTrailingBlank ls) : l ∈ ls :=
  (dropTrailingBlank_prefixOf ls).sublist.mem h

theorem head_eq_of_prefix {l₁ l₂ : List α} (h : l₁ <+: l₂) (hne : l₁ ≠ []) :
    l₂.head? = l₁.head? := by
  rcases h with ⟨t, rfl⟩
  cases l₁ with
  | nil => exact absurd rfl hne
  | cons a l => rfl

theorem map_eq_self_of_mem {f : α → α} {l : List α} (h : ∀ x ∈ l, f x = x) :
    l.map f = l := by
  induction l with
  | nil => rfl
  | cons c rest ih =>
    rw [List.map_cons, h c (List.mem_cons_self _ _),
      ih (fun x hx => h x (List.mem_cons_of_mem c hx))]

/- ## Properties of the normalizeBody line pipeline -/

theorem wsEolLines_ne_nil (s : List Char) : wsEolLines s ≠ [] := by
  unfold wsEolLines
  simpa using splitLines_ne_nil (unifyEol s)

theorem no_newline_of_mem_wsEolLines {s : List Char} {l : List Char}
    (hl : l ∈ wsEolLines s) : '\n' ∉ l := by
  unfold wsEolLines at hl
  rcases List.mem_map.mp hl with ⟨m, hm, rfl⟩
  exact fun h => newline_not_mem_of_mem_splitLines hm (mem_of_mem_trimRightWsTab h)

theorem no_cr_of_mem_wsEolLines {s : List Char} {l : List Char}
    (hl : l ∈ wsEolLines s) : '\r' ∉ l := by
  unfold wsEolLines at hl
  rcases List.mem_map.mp hl with ⟨m, hm, rfl⟩
  exact fun h =>
    cr_not_mem_unifyEol s (mem_of_mem_splitLines hm (mem_of_mem_trimRightWsTab h))

theorem trim_fixed_of_mem_wsEolLines {s : List Char} {l : List Char}
    (hl : l ∈ wsEolLines s) : trimRightWsTab l = l := by
  unfold wsEolLines at hl
  rcases List.mem_map.mp hl with ⟨m, -, rfl⟩
  exact trimRightWsTab_idem m

theorem no_cr_joinLines {ls : List (List Char)} (h : ∀ l ∈ ls, '\r' ∉ l) :
    '\r' ∉ joinLines ls := by
  intro hmem
  rcases mem_joinLines hmem with he | ⟨l, hl, hal⟩
  · exact absurd he (by decide)
  · exact h l hl hal

/-- A line list that is nonempty, newline-free, CR-free and already
right-trimmed is reproduced exactly by the `wsEolLines` pipeline applied to
its join. -/
theorem wsEolLines_joinLines {ls : List (List Char)} (hne : ls ≠ [])
    (hnl : ∀ l ∈ ls, '\n' ∉ l) (hcr : ∀ l ∈ ls, '\r' ∉ l)
    (hfix : ∀ l ∈ ls, trimRightWsTab l = l) :
    wsEolLines (joinLines ls) = ls := by
  unfold wsEolLines
  rw [unifyEol_eq_self _ (no_cr_joinLines hcr), splitLines_joinLines hne hnl,
    map_eq_self_of_mem hfix]

theorem mem_wsEolLines_of_mem_normalizeLines {s : List Char} {l : List Char}
    (hl : l ∈ normalizeLines s) : l ∈ wsEolLines s := by
  unfold normalizeLines dropLeadingBlank at hl
  exact mem_of_mem_dropWhile (mem_of_mem_dropTrailingBlank hl)

theorem wsEolLines_joinLines_normalizeLines {s : List Char}
    (hne : normalizeLines s ≠ []) :
    wsEolLines (joinLines (normalizeLines s)) = normalizeLines s :=
  wsEolLines_joinLines hne
    (fun l hl => no_newline_of_mem_wsEolLines (mem_wsEolLines_of_mem_normalizeLines hl))
    (fun l hl => no_cr_of_mem_wsEolLines (mem_wsEolLines_of_mem_normalizeLines hl))
    (fun l hl => trim_fixed_of_mem_wsEolLines (mem_wsEolLines_of_mem_normalizeLines hl))

theorem normalizeLines_joinLines_normalizeLines (s : List Char) :
    normalizeLines (joinLines (normalizeLines s)) = normalizeLines s := by
  by_cases hne : normalizeLines s = []
  · rw [hne]
    decide
  · have hW := wsEolLines_joinLines_normalizeLines hne
    unfold normalizeLines at hW ⊢
    rw [hW]
    set Y := dropLeadingBlank (wsEolLines s) with hY
    set L := dropTrailingBlank Y with hL
    have hLne : L ≠ [] := by
      unfold normalizeLines at hne
      rw [← hY, ← hL] at hne
      exact hne
    have hpre : L <+: Y := dropTrailingBlank_prefixOf Y
    have hYne : Y ≠ [] := by
      intro h
      rw [h] at hpre
      exact hLne (List.prefix_nil.mp hpre)
    rcases hYc : Y with - | ⟨a, t⟩
    · exact absurd hYc hYne
    · have hpa : isBlankLine a = false := by
        apply dropWhile_head_false (l := wsEolLines s) (p := isBlankLine)
        rw [hY] at hYc
        exact hYc
      have hhead : L.head? = some a := by
        rw [← head_eq_of_prefix (hYc ▸ hpre) hLne]
        rfl
      have hlead : dropLeadingBlank L = L :=
        dropWhile_eq_self_of_head hhead hpa
      rw [hlead, hL, dropTrailingBlank_idem]

theorem normalizeBody_data (s : String) :
    (normalizeBody s).data = joinLines (normalizeLines s.data) := rfl

/-- Core of claim C4: agreement up to trailing whitespace and line endings
implies agreement of the full normalization. -/
theorem normalizeBody_eq_of_wsEol_eq {a b : String}
    (h : wsEolNormalize a = wsEolNormalize b) :
    normalizeBody a = normalizeBody b := by
  have hj : joinLines (wsEolLines a.data) = joinLines (wsEolLines b.data) :=
    congrArg String.data h
  have hlines : wsEolLines a.data = wsEolLines b.data := by
    have ha := wsEolLines_joinLines
      (wsEolLines_ne_nil a.data)
      (fun l hl => no_newline_of_mem_wsEolLines hl)
      (fun l hl => no_cr_of_mem_wsEolLines hl)
      (fun l hl => trim_fixed_of_mem_wsEolLines hl)
    have hb := wsEolLines_joinLines
      (wsEolLines_ne_nil b.data)
      (fun l hl => no_newline_of_mem_wsEolLines hl)
      (fun l hl => no_cr_of_mem_wsEolLines hl)
      (fun l hl => trim_fixed_of_mem_wsEolLines hl)
    rw [← ha, ← hb, hj]
  unfold normalizeBody normalizeLines
  rw [hlines]

/- ## Characterization of the diff engine -/

theorem newList_cons_none {t : FuncSet} {kv : FuncKey × FuncInfo} {l : FuncSet}
    (h : lookupFS t kv.1 = none) : newList (kv :: l) t = kv.2 :: newList l t := by
  unfold newList
  rw [List.filter_cons, if_pos (by simp [h])]
  rfl

theorem newList_cons_some {t : FuncSet} {kv : FuncKey × FuncInfo} {l : FuncSet} {ti : FuncInfo}
    (h : lookupFS t kv.1 = some ti) : newList (kv :: l) t = newList l t := by
  unfold newList
  rw [List.filter_cons, if_neg (by simp [h])]

theorem changedList_cons_none {t : FuncSet} {kv : FuncKey × FuncInfo} {l : FuncSet}
    (h : lookupFS t kv.1 = none) : changedList (kv :: l) t = changedList l t := by
  unfold changedList
  rw [List.filterMap_cons]
  simp only [h]

theorem changedList_cons_changed {t : FuncSet} {kv : FuncKey × FuncInfo} {l : FuncSet}
    {ti : FuncInfo} (h : lookupFS t kv.1 = some ti) (hch : isChangedPair kv.2 ti = true) :
    changedList (kv :: l) t = (kv.2, ti) :: changedList l t := by
  unfold changedList
  rw [List.filterMap_cons]
  simp only [h, hch, if_true]

theorem changedList_cons_unchanged {t : FuncSet} {kv : FuncKey × FuncInfo} {l : FuncSet}
    {ti : FuncInfo} (h : lookupFS t kv.1 = some ti) (hch : isChangedPair kv.2 ti = false) :
    changedList (kv :: l) t = changedList l t := by
  unfold changedList
  rw [List.filterMap_cons]
  simp only [h, hch]
  rw [if_neg (by simp)]

theorem foldl_diffStep1 (toSet : FuncSet) (l : FuncSet) (r : DiffResult) :
    (l.foldl (diffStep1 toSet) r).NewFuncs = r.NewFuncs ++ newList l toSet ∧
    (l.foldl (diffStep1 toSet) r).ChangedFuncs = r.ChangedFuncs ++ changedList l toSet ∧
    (l.foldl (diffStep1 toSet) r).RemovedFuncs = r.RemovedFuncs ∧
    (l.foldl (diffStep1 toSet) r).FromTotal = r.FromTotal ∧
    (l.foldl (diffStep1 toSet) r).ToTotal = r.ToTotal := by
  induction l generalizing r with
  | nil => simp [newList, changedList]
  | cons kv rest ih =>
    rw [List.foldl_cons]
    obtain ⟨h1, h2, h3, h4, h5⟩ := ih (diffStep1 toSet r kv)
    refine ⟨?_, ?_, ?_, ?_, ?_⟩
    · rw [h1]
      rcases hlk : lookupFS toSet kv.1 with - | ti
      · rw [newList_cons_none hlk]
        simp [diffStep1, hlk]
      · rw [newList_cons_some hlk]
        by_cases hch : isChangedPair kv.2 ti = true
        · simp [diffStep1, hlk, hch]
        · simp [diffStep1, hlk, hch]
    · rw [h2]
      rcases hlk : lookupFS toSet kv.1 with - | ti
      · rw [changedList_cons_none hlk]
        simp [diffStep1, hlk]
      · by_cases hch : isChangedPair kv.2 ti = true
        · rw [changedList_cons_changed hlk hch]
          simp [diffStep1, hlk, hch]
        · rw [changedList_cons_unchanged hlk (by simpa using hch)]
          simp [diffStep1, hlk, hch]
    · rw [h3]
      rcases hlk : lookupFS toSet kv.1 with - | ti
      · simp [diffStep1, hlk]
      · by_cases hch : isChangedPair kv.2 ti = true
        · simp [diffStep1, hlk, hch]
        · simp [diffStep1, hlk, hch]
    · rw [h4]
      rcases hlk : lookupFS toSet kv.1 with - | ti
      · simp [diffStep1, hlk]
      · by_cases hch : isChangedPair kv.2 ti = true
        · simp [diffStep1, hlk, hch]
        · simp [diffStep1, hlk, hch]
    · rw [h5]
      rcases hlk : lookupFS toSet kv.1 with - | ti
      · simp [diffStep1, hlk]
      · by_cases hch : isChangedPair kv.2 ti = true
        · simp [diffStep1, hlk, hch]
        · simp [diffStep1, hlk, hch]

theorem foldl_diffStep2 (fs : FuncSet) (l : FuncSet) (r : DiffResult) :
    (l.foldl (diffStep2 fs) r).NewFuncs = r.NewFuncs ∧
    (l.foldl (diffStep2 fs) r).ChangedFuncs = r.ChangedFuncs ∧
    (l.foldl (diffStep2 fs) r).RemovedFuncs = r.RemovedFuncs ++ newList l fs ∧
    (l.foldl (diffStep2 fs) r).FromTotal = r.FromTotal ∧
    (l.foldl (diffStep2 fs) r).ToTotal = r.ToTotal := by
  induction l generalizing r with
  | nil => simp [newList]
  | cons kv rest ih =>
    rw [List.foldl_cons]
    obtain ⟨h1, h2, h3, h4, h5⟩ := ih (diffStep2 fs r kv)
    refine ⟨?_, ?_, ?_, ?_, ?_⟩
    · rw [h1]
      rcases hlk : lookupFS fs kv.1 with - | ti <;> simp [diffStep2, hlk]
    · rw [h2]
      rcases hlk : lookupFS fs kv.1 with - | ti <;> simp [diffStep2, hlk]
    · rw [h3]
      rcases hlk : lookupFS fs kv.1 with - | ti
      · rw [newList_cons_none hlk]
        simp [diffStep2, hlk]
      · rw [newList_cons_some hlk]
        simp [diffStep2, hlk]
    · rw [h4]
      rcases hlk : lookupFS fs kv.1 with - | ti <;> simp [diffStep2, hlk]
    · rw [h5]
      rcases hlk : lookupFS fs kv.1 with - | ti <;> simp [diffStep2, hlk]

theorem diffFuncs_NewFuncs (f t : FuncSet) : (diffFuncs f t).NewFuncs = newList f t := by
  unfold diffFuncs
  rw [(foldl_diffStep2 f t _).1, (foldl_diffStep1 t f _).1]
  simp

theorem diffFuncs_ChangedFuncs (f t : FuncSet) :
    (diffFuncs f t).ChangedFuncs = changedList f t := by
  unfold diffFuncs
  rw [(foldl_diffStep2 f t _).2.1, (foldl_diffStep1 t f _).2.1]
  simp

theorem diffFuncs_RemovedFuncs (f t : FuncSet) :
    (diffFuncs f t).RemovedFuncs = newList t f := by
  unfold diffFuncs
  rw [(foldl_diffStep2 f t _).2.2.1, (foldl_diffStep1 t f _).2.2.1]
  simp

theorem diffFuncs_FromTotal (f t : FuncSet) : (diffFuncs f t).FromTotal = f.length := by
  unfold diffFuncs
  rw [(foldl_diffStep2 f t _).2.2.2.1, (foldl_diffStep1 t f _).2.2.2.1]

theorem diffFuncs_ToTotal (f t : FuncSet) : (diffFuncs f t).ToTotal = t.length := by
  unfold diffFuncs
  rw [(foldl_diffStep2 f t _).2.2.2.2, (foldl_diffStep1 t f _).2.2.2.2]

/- ## Lookup lemmas for the association-list map model -/

theorem lookupFS_mem {s : FuncSet} {k : FuncKey} {i : FuncInfo}
    (h : lookupFS s k = some i) : (k, i) ∈ s := by
  induction s with
  | nil => simp [lookupFS] at h
  | cons kv rest ih =>
    obtain ⟨k', i'⟩ := kv
    rw [lookupFS] at h
    by_cases hk : k' = k
    · rw [if_pos hk] at h
      rcases Option.some.inj h with rfl
      rw [hk]
      exact List.mem_cons_self _ _
    · rw [if_neg hk] at h
      exact List.mem_cons_of_mem _ (ih h)

theorem lookupFS_isSome_of_mem {s : FuncSet} {k : FuncKey} {i : FuncInfo}
    (h : (k, i) ∈ s) : (lookupFS s k).isSome := by
  induction s with
  | nil => simp at h
  | cons kv rest ih =>
    obtain ⟨k', i'⟩ := kv
    rw [lookupFS]
    by_cases hk : k' = k
    · rw [if_pos hk]
      rfl
    · rw [if_neg hk]
      rcases List.mem_cons.mp h with he | hm
      · rcases Prod.mk.injEq .. ▸ he with ⟨h1, -⟩
        exact absurd h1.symm hk
      · exact ih hm

theorem lookupFS_ne_none_of_mem {s : FuncSet} {k : FuncKey} {i : FuncInfo}
    (h : (k, i) ∈ s) : lookupFS s k ≠ none := by
  have := lookupFS_isSome_of_mem h
  rcases hl : lookupFS s k with - | j
  · rw [hl] at this
    simp at this
  · simp

theorem lookupFS_of_mem_nodup {s : FuncSet} {k : FuncKey} {i : FuncInfo}
    (h : (k, i) ∈ s) (hnd : (s.map (fun kv => kv.1)).Nodup) :
    lookupFS s k = some i := by
  induction s with
  | nil => simp at h
  | cons kv rest ih =>
    obtain ⟨k', i'⟩ := kv
    rw [List.map_cons, List.nodup_cons] at hnd
    rw [lookupFS]
    rcases List.mem_cons.mp h with he | hm
    · rcases Prod.mk.injEq .. ▸ he with ⟨h1, h2⟩
      rw [if_pos h1.symm, h2]
    · by_cases hk : k' = k
      · exfalso
        apply hnd.1
        rw [hk]
        exact List.mem_map.mpr ⟨(k, i), hm, rfl⟩
      · rw [if_neg hk]
        exact ih hm hnd.2

theorem mem_newList {f t : FuncSet} {i : FuncInfo} :
    i ∈ newList f t ↔ ∃ k, (k, i) ∈ f ∧ lookupFS t k = none := by
  unfold newList
  constructor
  · intro h
    rcases List.mem_map.mp h with ⟨kv, hkv, rfl⟩
    rw [List.mem_filter] at hkv
    exact ⟨kv.1, by simpa using hkv.1, Option.isNone_iff_eq_none.mp hkv.2⟩
  · rintro ⟨k, hmem, hnone⟩
    exact List.mem_map.mpr ⟨(k, i),
      List.mem_filter.mpr ⟨hmem, by simp [hnone]⟩, rfl⟩

theorem mem_changedList {f t : FuncSet} {a b : FuncInfo} :
    (a, b) ∈ changedList f t ↔
      ∃ k, (k, a) ∈ f ∧ lookupFS t k = some b ∧ isChangedPair a b = true := by
  unfold changedList
  rw [List.mem_filterMap]
  constructor
  · rintro ⟨kv, hkv, hg⟩
    rcases hlk : lookupFS t kv.1 with - | ti
    · rw [hlk] at hg
      simp at hg
    · rw [hlk] at hg
      by_cases hch : isChangedPair kv.2 ti = true
      · have hg' : some (kv.2, ti) = some (a, b) := by
          rw [← hg]
          simp [hch]
        have hpair : (kv.2, ti) = (a, b) := Option.some.inj hg'
        have h1 : kv.2 = a := congrArg Prod.fst hpair
        have h2 : ti = b := congrArg Prod.snd hpair
        refine ⟨kv.1, ?_, ?_, ?_⟩
        · rw [← h1]
          exact hkv
        · rw [← h2]
          exact hlk
        · rw [← h1, ← h2]
          exact hch
      · exfalso
        have hnone : (none : Option (FuncInfo × FuncInfo)) = some (a, b) := by
          rw [← hg]
          simp [hch]
        simp at hnone
  · rintro ⟨k, hmem, hsome, hch⟩
    refine ⟨(k, a), hmem, ?_⟩
    simp only [hsome, hch, if_true]

theorem mem_removedList {f t : FuncSet} {i : FuncInfo} :
    i ∈ (diffFuncs f t).RemovedFuncs ↔ ∃ k, (k, i) ∈ t ∧ lookupFS f k = none := by
  rw [diffFuncs_RemovedFuncs]
  exact mem_newList

/- ## Key-class characterizations (under the inventory invariants) -/

theorem inNewKeys_iff {f t : FuncSet} (hf : ∀ kv ∈ f, kv.1 = keyOf kv.2) (k : FuncKey) :
    inNewKeys f t k ↔ (lookupFS f k).isSome ∧ lookupFS t k = none := by
  unfold inNewKeys
  rw [diffFuncs_NewFuncs]
  constructor
  · rintro ⟨j, hj, rfl⟩
    rcases mem_newList.mp hj with ⟨k', hk', hnone⟩
    have hkeq : k' = keyOf j := hf (k', j) hk'
    subst hkeq
    exact ⟨lookupFS_isSome_of_mem hk', hnone⟩
  · rintro ⟨hsome, hnone⟩
    rcases Option.isSome_iff_exists.mp hsome with ⟨i, hi⟩
    have hmem := lookupFS_mem hi
    exact ⟨i, mem_newList.mpr ⟨k, hmem, hnone⟩, (hf (k, i) hmem).symm⟩

theorem inRemovedKeys_iff {f t : FuncSet} (ht : ∀ kv ∈ t, kv.1 = keyOf kv.2) (k : FuncKey) :
    inRemovedKeys f t k ↔ (lookupFS t k).isSome ∧ lookupFS f k = none := by
  unfold inRemovedKeys
  constructor
  · rintro ⟨j, hj, rfl⟩
    rcases mem_removedList.mp hj with ⟨k', hk', hnone⟩
    have hkeq : k' = keyOf j := ht (k', j) hk'
    subst hkeq
    exact ⟨lookupFS_isSome_of_mem hk', hnone⟩
  · rintro ⟨hsome, hnone⟩
    rcases Option.isSome_iff_exists.mp hsome with ⟨i, hi⟩
    have hmem := lookupFS_mem hi
    exact ⟨i, mem_removedList.mpr ⟨k, hmem, hnone⟩, (ht (k, i) hmem).symm⟩

theorem inChangedKeys_iff {f t : FuncSet} (hf : ∀ kv ∈ f, kv.1 = keyOf kv.2)
    (hnd : (f.map (fun kv => kv.1)).Nodup) (k : FuncKey) :
    inChangedKeys f t k ↔
      ∃ i ti, lookupFS f k = some i ∧ lookupFS t k = some ti ∧
        isChangedPair i ti = true := by
  unfold inChangedKeys
  rw [diffFuncs_ChangedFuncs]
  constructor
  · rintro ⟨⟨a, b⟩, hpr, hk⟩
    rcases mem_changedList.mp hpr with ⟨k', hk', hsome, hch⟩
    have hkeq : k' = keyOf a := hf (k', a) hk'
    subst hkeq
    rcases hk
    exact ⟨a, b, lookupFS_of_mem_nodup hk' hnd, hsome, hch⟩
  · rintro ⟨i, ti, hfi, hti, hch⟩
    exact ⟨(i, ti), mem_changedList.mpr ⟨k, lookupFS_mem hfi, hti, hch⟩,
      (hf (k, i) (lookupFS_mem hfi)).symm⟩

/- ## Per-package stats lemmas -/

theorem lookupStats_bumpStats (m : List (String × PackageStats)) (q : String)
    (f : PackageStats → PackageStats) (p : String) :
    lookupStats (bumpStats m q f) p =
      if p = q then some (f ((lookupStats m q).getD ⟨0, 0, 0⟩))
      else lookupStats m p := by
  induction m with
  | nil =>
    by_cases hpq : p = q
    · subst hpq
      simp [bumpStats, lookupStats]
    · simp [bumpStats, lookupStats, hpq, Ne.symm hpq]
  | cons e rest ih =>
    obtain ⟨a, s⟩ := e
    by_cases haq : a = q
    · subst haq
      rw [bumpStats, if_pos rfl]
      by_cases hpa : a = p
      · subst hpa
        simp [lookupStats]
      · simp [lookupStats, hpa, Ne.symm hpa]
    · rw [bumpStats, if_neg haq]
      by_cases hap : a = p
      · subst hap
        have hpq : ¬a = q := haq
        simp [lookupStats, hpq]
      · simp only [lookupStats, if_neg hap]
        rw [ih]
        by_cases hpq : p = q
        · subst hpq
          simp [lookupStats, haq]
        · simp [hpq]

theorem statOf_bumpStats (m : List (String × PackageStats)) (q : String)
    (f : PackageStats → PackageStats) (p : String) :
    statOf (bumpStats m q f) p = if p = q then f (statOf m q) else statOf m p := by
  unfold statOf
  rw [lookupStats_bumpStats]
  by_cases hpq : p = q <;> simp [hpq]

theorem lookupStats_eq_none_iff (m : List (String × PackageStats)) (q : String) :
    lookupStats m q = none ↔ q ∉ m.map (fun e => e.1) := by
  induction m with
  | nil => simp [lookupStats]
  | cons e rest ih =>
    obtain ⟨a, s⟩ := e
    rw [lookupStats]
    by_cases haq : a = q
    · subst haq
      simp
    · simp only [if_neg haq, List.map_cons, List.mem_cons]
      rw [ih]
      constructor
      · intro h hc
        rcases hc with hc | hc
        · exact haq hc.symm
        · exact h hc
      · intro h hc
        exact h (Or.inr hc)

theorem keys_bumpStats (m : List (String × PackageStats)) (q : String)
    (f : PackageStats → PackageStats) :
    (bumpStats m q f).map (fun e => e.1) =
      if (lookupStats m q).isSome then m.map (fun e => e.1)
      else m.map (fun e => e.1) ++ [q] := by
  induction m with
  | nil => simp [bumpStats, lookupStats]
  | cons e rest ih =>
    obtain ⟨a, s⟩ := e
    by_cases haq : a = q
    · subst haq
      rw [bumpStats, if_pos rfl]
      simp [lookupStats]
    · rw [bumpStats, if_neg haq]
      simp only [List.map_cons, lookupStats, if_neg haq]
      rw [ih]
      by_cases hsome : (lookupStats rest q).isSome <;> simp [hsome]

theorem nodup_keys_bumpStats {m : List (String × PackageStats)} (q : String)
    (f : PackageStats → PackageStats) (h : (m.map (fun e => e.1)).Nodup) :
    ((bumpStats m q f).map (fun e => e.1)).Nodup := by
  rw [keys_bumpStats]
  rcases hl : lookupStats m q with - | s
  · rw [if_neg (by simp [hl])]
    rw [List.nodup_append]
    exact ⟨h, List.nodup_singleton q,
      by simpa using fun hq => (lookupStats_eq_none_iff m q).mp hl hq⟩
  · rw [if_pos (by simp [hl])]
    exact h

theorem sumBy_bumpStats (g : PackageStats → Int) (d : Int)
    (m : List (String × PackageStats)) (q : String) (f : PackageStats → PackageStats)
    (hf : ∀ s, g (f s) = g s + d) (hz : g ⟨0, 0, 0⟩ = 0) :
    sumBy g (bumpStats m q f) = sumBy g m + d := by
  induction m with
  | nil => simp [bumpStats, sumBy, hf, hz]
  | cons e rest ih =>
    obtain ⟨a, s⟩ := e
    by_cases haq : a = q
    · subst haq
      rw [bumpStats, if_pos rfl]
      simp only [sumBy, List.map_cons, List.sum_cons, hf]
      ring
    · rw [bumpStats, if_neg haq]
      simp only [sumBy, List.map_cons, List.sum_cons] at ih ⊢
      rw [ih]
      ring

theorem filter_append_singleton_pkg (l : List FuncInfo) (i : FuncInfo) (p : String) :
    (((l ++ [i]).filter (fun x => x.Package == p)).length : Int) =
      ((l.filter (fun x => x.Package == p)).length : Int) +
        (if i.Package = p then 1 else 0) := by
  rw [List.filter_append, List.length_append]
  by_cases h : i.Package = p
  · simp [List.filter, h]
  · have hb : (i.Package == p) = false := beq_eq_false_iff_ne.mpr h
    simp [List.filter, hb, h]

theorem filter_append_singleton_pair (l : List (FuncInfo × FuncInfo))
    (pr : FuncInfo × FuncInfo) (p : String) :
    (((l ++ [pr]).filter (fun x => x.1.Package == p)).length : Int) =
      ((l.filter (fun x => x.1.Package == p)).length : Int) +
        (if pr.1.Package = p then 1 else 0) := by
  rw [List.filter_append, List.length_append]
  by_cases h : pr.1.Package = p
  · simp [List.filter, h]
  · have hb : (pr.1.Package == p) = false := beq_eq_false_iff_ne.mpr h
    simp [List.filter, hb, h]

theorem statsInvariant_diffStep1 (t : FuncSet) (r : DiffResult) (kv : FuncKey × FuncInfo)
    (h : statsInvariant r) : statsInvariant (diffStep1 t r kv) := by
  obtain ⟨hN, hR, hC, hsN, hsR, hsC, hnd⟩ := h
  rcases hlk : lookupFS t kv.1 with - | ti
  · simp only [diffStep1, hlk]
    refine ⟨?_, ?_, ?_, ?_, ?_, ?_, ?_⟩
    · intro p
      rw [statOf_bumpStats, filter_append_singleton_pkg]
      by_cases hpq : p = kv.2.Package
      · subst hpq
        simp [hN kv.2.Package]
      · rw [if_neg hpq, if_neg (fun he => hpq he.symm)]
        simp [hN p]
    · intro p
      rw [statOf_bumpStats]
      by_cases hpq : p = kv.2.Package
      · subst hpq
        simp [hR kv.2.Package]
      · rw [if_neg hpq]
        exact hR p
    · intro p
      rw [statOf_bumpStats]
      by_cases hpq : p = kv.2.Package
      · subst hpq
        simp [hC kv.2.Package]
      · rw [if_neg hpq]
        exact hC p
    · rw [sumBy_bumpStats _ 1 _ _ _ (fun s => rfl) rfl, hsN,
        List.length_append, List.length_singleton]
      push_cast
      ring
    · rw [sumBy_bumpStats _ 0 _ _ _ (fun s => by simp) rfl, hsR]
      ring
    · rw [sumBy_bumpStats _ 0 _ _ _ (fun s => by simp) rfl, hsC]
      ring
    · exact nodup_keys_bumpStats _ _ hnd
  · by_cases hch : isChangedPair kv.2 ti = true
    · simp only [diffStep1, hlk, hch, if_true]
      refine ⟨?_, ?_, ?_, ?_, ?_, ?_, ?_⟩
      · intro p
        rw [statOf_bumpStats]
        by_cases hpq : p = kv.2.Package
        · subst hpq
          simp [hN kv.2.Package]
        · rw [if_neg hpq]
          exact hN p
      · intro p
        rw [statOf_bumpStats]
        by_cases hpq : p = kv.2.Package
        · subst hpq
          simp [hR kv.2.Package]
        · rw [if_neg hpq]
          exact hR p
      · intro p
        rw [statOf_bumpStats, filter_append_singleton_pair]
        by_cases hpq : p = kv.2.Package
        · subst hpq
          simp [hC kv.2.Package]
        · rw [if_neg hpq, if_neg (fun he => hpq he.symm)]
          simp [hC p]
      · rw [sumBy_bumpStats _ 0 _ _ _ (fun s => by simp) rfl, hsN]
        ring
      · rw [sumBy_bumpStats _ 0 _ _ _ (fun s => by simp) rfl, hsR]
        ring
      · rw [sumBy_bumpStats _ 1 _ _ _ (fun s => rfl) rfl, hsC,
          List.length_append, List.length_singleton]
        push_cast
        ring
      · exact nodup_keys_bumpStats _ _ hnd
    · simp only [diffStep1, hlk, if_neg hch]
      exact ⟨hN, hR, hC, hsN, hsR, hsC, hnd⟩

theorem statsInvariant_diffStep2 (fs : FuncSet) (r : DiffResult) (kv : FuncKey × FuncInfo)
    (h : statsInvariant r) : statsInvariant (diffStep2 fs r kv) := by
  obtain ⟨hN, hR, hC, hsN, hsR, hsC, hnd⟩ := h
  rcases hlk : lookupFS fs kv.1 with - | ti
  · simp only [diffStep2, hlk]
    refine ⟨?_, ?_, ?_, ?_, ?_, ?_, ?_⟩
    · intro p
      rw [statOf_bumpStats]
      by_cases hpq : p = kv.2.Package
      · subst hpq
        simp [hN kv.2.Package]
      · rw [if_neg hpq]
        exact hN p
    · intro p
      rw [statOf_bumpStats, filter_append_singleton_pkg]
      by_cases hpq : p = kv.2.Package
      · subst hpq
        simp [hR kv.2.Package]
      · rw [if_neg hpq, if_neg (fun he => hpq he.symm)]
        simp [hR p]
    · intro p
      rw [statOf_bumpStats]
      by_cases hpq : p = kv.2.Package
      · subst hpq
        simp [hC kv.2.Package]
      · rw [if_neg hpq]
        exact hC p
    · rw [sumBy_bumpStats _ 0 _ _ _ (fun s => by simp) rfl, hsN]
      ring
    · rw [sumBy_bumpStats _ 1 _ _ _ (fun s => rfl) rfl, hsR,
        List.length_append, List.length_singleton]
      push_cast
      ring
    · rw [sumBy_bumpStats _ 0 _ _ _ (fun s => by simp) rfl, hsC]
      ring
    · exact nodup_keys_bumpStats _ _ hnd
  · simp only [diffStep2, hlk]
    exact ⟨hN, hR, hC, hsN, hsR, hsC, hnd⟩

theorem foldl_preserves {α : Type} {step : DiffResult → α → DiffResult}
    {P : DiffResult → Prop} (hstep : ∀ r x, P r → P (step r x)) :
    ∀ (l : List α) (r : DiffResult), P r → P (l.foldl step r) := by
  intro l
  induction l with
  | nil => exact fun r h => h
  | cons x rest ih => exact fun r h => ih (step r x) (hstep r x h)

theorem statsInvariant_diffFuncs (f t : FuncSet) : statsInvariant (diffFuncs f t) := by
  unfold diffFuncs
  apply foldl_preserves (statsInvariant_diffStep2 f)
  apply foldl_preserves (statsInvariant_diffStep1 t)
  refine ⟨?_, ?_, ?_, ?_, ?_, ?_, ?_⟩ <;>
    simp [statOf, lookupStats, sumBy]

/- ## String append lemmas -/

theorem string_data_append (a b : String) : (a ++ b).data = a.data ++ b.data := by
  cases a
  cases b
  rfl

theorem string_ext {a b : String} (h : a.data = b.data) : a = b := by
  cases a
  cases b
  exact congrArg String.mk h

theorem string_append_ne_empty_left (a b : String) (h : a ≠ "") : a ++ b ≠ "" := by
  intro he
  apply h
  have hdata : a.data ++ b.data = [] := by
    rw [← string_data_append, he]
  exact string_ext (List.append_eq_nil.mp hdata).1

theorem string_append_right_cancel {a b c : String} (h : a ++ c = b ++ c) : a = b := by
  have hd : a.data ++ c.data = b.data ++ c.data := by
    rw [← string_data_append, ← string_data_append, h]
  exact string_ext (List.append_cancel_right hd)

theorem string_append_left_cancel {a b c : String} (h : a ++ b = a ++ c) : b = c := by
  have hd : a.data ++ b.data = a.data ++ c.data := by
    rw [← string_data_append, ← string_data_append, h]
  exact string_ext (List.append_cancel_left hd)

/- ## extractLines lemmas -/

theorem clampStart_eq_max (sl : Int) : clampStart sl = max sl 1 := by
  unfold clampStart
  rcases lt_or_ge sl 1 with h | h
  · rw [if_pos h, max_eq_right (le_of_lt h)]
  · rw [if_neg (not_lt.mpr h), max_eq_left h]

theorem clampEnd_eq_min (el : Int) (n : Nat) : clampEnd el n = min el (n : Int) := by
  unfold clampEnd
  rcases lt_or_ge (n : Int) el with h | h
  · rw [if_pos h, min_eq_right (le_of_lt h)]
  · rw [if_neg (not_lt.mpr h), min_eq_left h]

theorem extractLines_eq (src : String) (sl el : Int) :
    extractLines src sl el =
      if clampStart sl > clampEnd el (splitLines src.data).length then ""
      else
        ⟨joinLines (((splitLines src.data).drop (clampStart sl - 1).toNat).take
          (clampEnd el (splitLines src.data).length - (clampStart sl - 1)).toNat)⟩ := by
  unfold extractLines
  rw [if_neg (by simpa [List.length_eq_zero] using splitLines_ne_nil src.data)]

theorem no_newline_of_mem_take_drop {L : List (List Char)} {l : List Char}
    (hmem : ∀ m ∈ L, '\n' ∉ m) {a b : Nat} (h : l ∈ (L.drop a).take b) : '\n' ∉ l := by
  have h1 : List.Sublist ((L.drop a).take b) (L.drop a) := List.take_sublist ..
  have h2 : List.Sublist (L.drop a) L := List.drop_sublist ..
  exact hmem l ((h1.trans h2).mem h)

theorem lookupFS_isSome_iff_mem_keys (s : FuncSet) (k : FuncKey) :
    (lookupFS s k).isSome ↔ k ∈ s.map (fun kv => kv.1) := by
  constructor
  · intro h
    rcases Option.isSome_iff_exists.mp h with ⟨i, hi⟩
    exact List.mem_map.mpr ⟨(k, i), lookupFS_mem hi, rfl⟩
  · intro h
    rcases List.mem_map.mp h with ⟨kv, hkv, hk⟩
    have : (k, kv.2) ∈ s := by
      rw [← hk]
      exact hkv
    exact lookupFS_isSome_of_mem this

/- ## Claim theorems -/

/-- C7: body normalization is idempotent: for every string `s`,
`normalizeBody (normalizeBody s) = normalizeBody s`, where `normalizeBody`
unifies line endings to LF, trims trailing spaces/tabs from each line, and
drops leading and trailing blank lines. -/
theorem normalizeBody_idem (s : String) :
    normalizeBody (normalizeBody s) = normalizeBody s := by
  have h := normalizeLines_joinLines_normalizeLines s.data
  unfold normalizeBody
  rw [show (⟨joinLines (normalizeLines s.data)⟩ : String).data =
    joinLines (normalizeLines s.data) from rfl, h]

/-- C4 (amended): for every changed pair whose two retrieved body texts are
identical except for trailing whitespace on lines and line-ending style
(agreement of `wsEolNormalize`), **and whose normalized from-side body is
nonempty**, the renderer flags the pair as identical-body and the artifact
file name gets the `identical_` prefix.  (The nonemptiness condition is
forced by the guard `nf != ""` at main.go line 621; see the
counterexample.) -/
theorem identicalBody_flagged (fromInfo : FuncInfo) (a b : String)
    (heq : wsEolNormalize a = wsEolNormalize b) (hne : normalizeBody a ≠ "") :
    isIdenticalBody a b = true ∧
      changedFileBaseName fromInfo a b =
        "identical_" ++ changedFuncFilenameWithRecv fromInfo := by
  have hnorm := normalizeBody_eq_of_wsEol_eq heq
  have hne' : normalizeBody b ≠ "" := hnorm ▸ hne
  have hflag : isIdenticalBody a b = true := by
    simp [isIdenticalBody, hnorm, hne']
  exact ⟨hflag, by simp [changedFileBaseName, hflag]⟩

theorem identicalBody_flagged_witness :
    wsEolNormalize ("x \r\ny") = wsEolNormalize ("x\ny") ∧
    normalizeBody ("x \r\ny") ≠ "" ∧
    (isIdenticalBody ("x \r\ny") ("x\ny") = true ∧
      changedFileBaseName ⟨"p", "a.go", "f", "", "()", true, 1, 2, 2⟩
          ("x \r\ny") ("x\ny") =
        "identical_" ++
          changedFuncFilenameWithRecv ⟨"p", "a.go", "f", "", "()", true, 1, 2, 2⟩) :=
  ⟨by decide, by decide, identicalBody_flagged _ _ _ (by decide) (by decide)⟩

/-- C4 counterexample: the claim as stated (without the nonemptiness
condition) is false: the bodies `" "` and `""` are identical except for
trailing whitespace, yet the pair is not flagged identical-body and the
file name is not prefixed, because both normalize to the empty string and
the code requires the normalized from-side body to be nonempty. -/
theorem identicalBody_not_flagged_cex :
    wsEolNormalize (" ") = wsEolNormalize ("") ∧
    isIdenticalBody (" ") ("") = false ∧
    changedFileBaseName ⟨"p", "a.go", "f", "", "()", true, 1, 2, 2⟩ (" ") ("") =
      changedFuncFilenameWithRecv ⟨"p", "a.go", "f", "", "()", true, 1, 2, 2⟩ := by
  refine ⟨by decide, by decide, by decide⟩

/-- C3 (amended): the base file name is deterministic — it is a function of
the from-side record's (file, receiver, name) triple, so rendering the same
changed pair twice yields the same name — and two records that agree on
file and receiver but differ in name get different names.  (Full collision
resistance over arbitrary differing triples fails, see the
counterexample: path sanitization can collapse distinct triples.) -/
theorem changedFuncFilename_deterministic (i j : FuncInfo)
    (hfile : i.File = j.File) (hrecv : i.Receiver = j.Receiver) :
    (i.Name = j.Name →
      changedFuncFilenameWithRecv i = changedFuncFilenameWithRecv j) ∧
    (i.Name ≠ j.Name →
      changedFuncFilenameWithRecv i ≠ changedFuncFilenameWithRecv j) := by
  constructor
  · intro hname
    unfold changedFuncFilenameWithRecv
    rw [hfile, hrecv, hname]
  · intro hname heq
    apply hname
    unfold changedFuncFilenameWithRecv at heq
    rw [hfile, hrecv] at heq
    by_cases hr : j.Receiver ≠ ""
    · rw [if_pos hr, if_pos hr] at heq
      exact string_append_left_cancel (string_append_right_cancel heq)
    · rw [if_neg hr, if_neg hr] at heq
      exact string_append_left_cancel (string_append_right_cancel heq)

theorem changedFuncFilename_deterministic_witness :
    ((⟨"p", "a.go", "f", "*T", "()", true, 1, 2, 2⟩ : FuncInfo).File =
      (⟨"p", "a.go", "g", "*T", "()", true, 5, 9, 5⟩ : FuncInfo).File) ∧
    ((⟨"p", "a.go", "f", "*T", "()", true, 1, 2, 2⟩ : FuncInfo).Receiver =
      (⟨"p", "a.go", "g", "*T", "()", true, 5, 9, 5⟩ : FuncInfo).Receiver) ∧
    changedFuncFilenameWithRecv (⟨"p", "a.go", "f", "*T", "()", true, 1, 2, 2⟩ : FuncInfo) ≠
      changedFuncFilenameWithRecv (⟨"p", "a.go", "g", "*T", "()", true, 5, 9, 5⟩ : FuncInfo) :=
  ⟨by decide, by decide,
    (changedFuncFilename_deterministic _ _ (by decide) (by decide)).2 (by decide)⟩

/-- C3 counterexample: collision resistance fails for records that differ
in the (file, receiver, name) triple: the files `a/b.go` and `a_b.go` (same
function name, no receiver) both sanitize to the base name
`a_b.go__f.md`. -/
theorem changedFuncFilename_collision_cex :
    ((⟨"p", "a/b.go", "f", "", "()", true, 1, 2, 2⟩ : FuncInfo).File,
      (⟨"p", "a/b.go", "f", "", "()", true, 1, 2, 2⟩ : FuncInfo).Receiver,
      (⟨"p", "a/b.go", "f", "", "()", true, 1, 2, 2⟩ : FuncInfo).Name) ≠
      ((⟨"p", "a_b.go", "f", "", "()", true, 1, 2, 2⟩ : FuncInfo).File,
        (⟨"p", "a_b.go", "f", "", "()", true, 1, 2, 2⟩ : FuncInfo).Receiver,
        (⟨"p", "a_b.go", "f", "", "()", true, 1, 2, 2⟩ : FuncInfo).Name) ∧
    changedFuncFilenameWithRecv (⟨"p", "a/b.go", "f", "", "()", true, 1, 2, 2⟩ : FuncInfo) =
      changedFuncFilenameWithRecv (⟨"p", "a_b.go", "f", "", "()", true, 1, 2, 2⟩ : FuncInfo) := by
  refine ⟨by decide, by decide⟩

/-- C10: `extractLines` is total and in-bounds: it clamps `startLine` below
1 up to 1 and `endLine` above the line count down to the line count, returns
the empty string when the clamped range is empty, and otherwise returns
exactly the 1-based inclusive lines `startLine..endLine` joined with
newlines (stated through the split of the result). -/
theorem extractLines_spec (src : String) (sl el : Int) :
    (extractLines src sl el =
      extractLines src (max sl 1) (min el ((splitLines src.data).length : Int))) ∧
    (max sl 1 > min el ((splitLines src.data).length : Int) →
      extractLines src sl el = "") ∧
    (1 ≤ sl → el ≤ ((splitLines src.data).length : Int) → sl ≤ el →
      splitLines (extractLines src sl el).data =
        ((splitLines src.data).drop (sl - 1).toNat).take (el - sl + 1).toNat) := by
  have hc1 : clampStart (max sl 1) = clampStart sl := by
    rw [clampStart_eq_max, clampStart_eq_max, max_assoc]
    simp
  have hc2 : clampEnd (min el ((splitLines src.data).length : Int))
      (splitLines src.data).length = clampEnd el (splitLines src.data).length := by
    rw [clampEnd_eq_min, clampEnd_eq_min, min_assoc]
    simp
  refine ⟨?_, ?_, ?_⟩
  · rw [extractLines_eq, extractLines_eq, hc1, hc2]
  · intro hgt
    rw [extractLines_eq, if_pos]
    rw [clampStart_eq_max, clampEnd_eq_min]
    exact hgt
  · intro h1 h2 h3
    have hcs : clampStart sl = sl := by
      rw [clampStart_eq_max, max_eq_left h1]
    have hce : clampEnd el (splitLines src.data).length = el := by
      rw [clampEnd_eq_min, min_eq_left h2]
    rw [extractLines_eq, hcs, hce, if_neg (not_lt.mpr h3)]
    have htoNat : (el - (sl - 1)).toNat = (el - sl + 1).toNat := by
      omega
    rw [htoNat]
    set L := splitLines src.data with hL
    have hslice : ((L.drop (sl - 1).toNat).take (el - sl + 1).toNat) ≠ [] := by
      have hlen : L.length = (L.length : Int).toNat := by omega
      intro hnil
      have := congrArg List.length hnil
      rw [List.length_take, List.length_drop] at this
      simp only [List.length_nil] at this
      omega
    exact splitLines_joinLines hslice
      (fun l hl => no_newline_of_mem_take_drop
        (fun m hm => newline_not_mem_of_mem_splitLines hm) hl)

theorem extractLines_spec_witness :
    (1 ≤ (2 : Int)) ∧
    ((3 : Int) ≤ ((splitLines ("a\nb\nc" : String).data).length : Int)) ∧
    ((2 : Int) ≤ (3 : Int)) ∧
    splitLines (extractLines ("a\nb\nc") 2 3).data =
      ((splitLines ("a\nb\nc" : String).data).drop ((2 : Int) - 1).toNat).take
        ((3 : Int) - 2 + 1).toNat :=
  ⟨by decide, by decide, by decide,
    (extractLines_spec ("a\nb\nc") 2 3).2.2 (by decide) (by decide) (by decide)⟩

/-- C5: for all inventories `from` and `to`, the set of identity keys of
`diff(from, to).newDecls` equals the set of identity keys of
`diff(to, from).removedDecls`. -/
theorem newKeys_eq_swapped_removedKeys (f t : FuncSet) (k : FuncKey) :
    k ∈ (diffFuncs f t).NewFuncs.map keyOf ↔
      k ∈ (diffFuncs t f).RemovedFuncs.map keyOf := by
  rw [diffFuncs_NewFuncs, diffFuncs_RemovedFuncs]

/-- C6: for every inventory `X` (keys unique, as in a Go map),
`diff(X, X)` yields empty new, removed and changed sets. -/
theorem diffFuncs_self_empty (X : FuncSet) (hnd : (X.map (fun kv => kv.1)).Nodup) :
    (diffFuncs X X).NewFuncs = [] ∧ (diffFuncs X X).RemovedFuncs = [] ∧
      (diffFuncs X X).ChangedFuncs = [] := by
  have hfilter : X.filter (fun kv => (lookupFS X kv.1).isNone) = [] := by
    rw [List.filter_eq_nil_iff]
    intro kv hkv
    obtain ⟨k, i⟩ := kv
    simp only [Option.isNone_iff_eq_none]
    exact fun h => lookupFS_ne_none_of_mem hkv h
  refine ⟨?_, ?_, ?_⟩
  · rw [diffFuncs_NewFuncs]
    unfold newList
    rw [hfilter]
    rfl
  · rw [diffFuncs_RemovedFuncs]
    unfold newList
    rw [hfilter]
    rfl
  · rw [diffFuncs_ChangedFuncs]
    unfold changedList
    rw [List.filterMap_eq_nil_iff]
    intro kv hkv
    obtain ⟨k, i⟩ := kv
    rw [lookupFS_of_mem_nodup hkv hnd]
    simp [isChangedPair]

theorem diffFuncs_self_empty_witness :
    (([((⟨"a", "", "F"⟩ : FuncKey), (⟨"a", "x.go", "F", "", "()", true, 1, 3, 3⟩ : FuncInfo))] :
        FuncSet).map (fun kv => kv.1)).Nodup ∧
    ((diffFuncs
        ([((⟨"a", "", "F"⟩ : FuncKey), (⟨"a", "x.go", "F", "", "()", true, 1, 3, 3⟩ : FuncInfo))])
        ([((⟨"a", "", "F"⟩ : FuncKey), (⟨"a", "x.go", "F", "", "()", true, 1, 3, 3⟩ : FuncInfo))])).NewFuncs = [] ∧
      (diffFuncs
        ([((⟨"a", "", "F"⟩ : FuncKey), (⟨"a", "x.go", "F", "", "()", true, 1, 3, 3⟩ : FuncInfo))])
        ([((⟨"a", "", "F"⟩ : FuncKey), (⟨"a", "x.go", "F", "", "()", true, 1, 3, 3⟩ : FuncInfo))])).RemovedFuncs = [] ∧
      (diffFuncs
        ([((⟨"a", "", "F"⟩ : FuncKey), (⟨"a", "x.go", "F", "", "()", true, 1, 3, 3⟩ : FuncInfo))])
        ([((⟨"a", "", "F"⟩ : FuncKey), (⟨"a", "x.go", "F", "", "()", true, 1, 3, 3⟩ : FuncInfo))])).ChangedFuncs = []) :=
  ⟨by decide, diffFuncs_self_empty _ (by decide)⟩

/-- C1: for well-formed inventories and every key present in `from`: if the
key is absent from `to`, the from-side record is classified new; if present
in both and any of the four change-sensitive fields differs, the pair
(fromRecord, toRecord) is classified changed; if all four agree, the key
appears in none of the new/removed/changed outputs. -/
theorem diffFuncs_classifies (f t : FuncSet) (hf : FSWF f) (ht : FSWF t)
    (k : FuncKey) (i : FuncInfo) (hmem : (k, i) ∈ f) :
    (lookupFS t k = none → i ∈ (diffFuncs f t).NewFuncs) ∧
    (∀ ti, lookupFS t k = some ti → isChangedPair i ti = true →
      (i, ti) ∈ (diffFuncs f t).ChangedFuncs) ∧
    (∀ ti, lookupFS t k = some ti → isChangedPair i ti = false →
      (∀ j ∈ (diffFuncs f t).NewFuncs, keyOf j ≠ k) ∧
      (∀ j ∈ (diffFuncs f t).RemovedFuncs, keyOf j ≠ k) ∧
      (∀ pr ∈ (diffFuncs f t).ChangedFuncs, keyOf pr.1 ≠ k ∧ keyOf pr.2 ≠ k)) := by
  obtain ⟨hfc, hfnd⟩ := hf
  obtain ⟨htc, htnd⟩ := ht
  refine ⟨?_, ?_, ?_⟩
  · intro hnone
    rw [diffFuncs_NewFuncs]
    exact mem_newList.mpr ⟨k, hmem, hnone⟩
  · intro ti hsome hch
    rw [diffFuncs_ChangedFuncs]
    exact mem_changedList.mpr ⟨k, hmem, hsome, hch⟩
  · intro ti hsome hch
    refine ⟨?_, ?_, ?_⟩
    · intro j hj hkj
      rw [diffFuncs_NewFuncs] at hj
      rcases mem_newList.mp hj with ⟨k', hk', hnone⟩
      have hkeq : k' = keyOf j := hfc (k', j) hk'
      rw [hkeq, hkj] at hnone
      rw [hnone] at hsome
      exact Option.noConfusion hsome
    · intro j hj hkj
      rcases mem_removedList.mp hj with ⟨k', hk', hnoneF⟩
      have hkeq : k' = keyOf j := htc (k', j) hk'
      rw [hkeq, hkj] at hnoneF
      exact lookupFS_ne_none_of_mem hmem hnoneF
    · intro pr hpr
      rw [diffFuncs_ChangedFuncs] at hpr
      obtain ⟨a, b⟩ := pr
      rcases mem_changedList.mp hpr with ⟨k', hk', hsome', hch'⟩
      have hk'a : k' = keyOf a := hfc (k', a) hk'
      have hk'b : k' = keyOf b := htc (k', b) (lookupFS_mem hsome')
      have hcontr : keyOf a = k → False := by
        intro hka
        rw [hk'a, hka] at hk' hsome'
        have h2 : lookupFS f k = some i := lookupFS_of_mem_nodup hmem hfnd
        have hai : a = i :=
          Option.some.inj ((lookupFS_of_mem_nodup hk' hfnd).symm.trans h2)
        have hbti : b = ti := Option.some.inj (hsome'.symm.trans hsome)
        rw [hai, hbti, hch] at hch'
        exact Bool.noConfusion hch'
      constructor
      · exact fun hka => hcontr hka
      · intro hkb
        exact hcontr (by rw [← hk'a, hk'b, hkb])

theorem diffFuncs_classifies_witness :
    FSWF ([(FuncKey.mk ("a") ("") ("F"),
      FuncInfo.mk ("a") ("x.go") ("F") ("") ("()") true 1 3 3)]) ∧
    FSWF ([(FuncKey.mk ("a") ("") ("F"),
      FuncInfo.mk ("a") ("x.go") ("F") ("") ("(y int)") true 1 3 3)]) ∧
    (FuncKey.mk ("a") ("") ("F"),
        FuncInfo.mk ("a") ("x.go") ("F") ("") ("()") true 1 3 3) ∈
      ([(FuncKey.mk ("a") ("") ("F"),
        FuncInfo.mk ("a") ("x.go") ("F") ("") ("()") true 1 3 3)] : FuncSet) ∧
    lookupFS ([(FuncKey.mk ("a") ("") ("F"),
        FuncInfo.mk ("a") ("x.go") ("F") ("") ("(y int)") true 1 3 3)])
        (FuncKey.mk ("a") ("") ("F")) =
      some (FuncInfo.mk ("a") ("x.go") ("F") ("") ("(y int)") true 1 3 3) ∧
    isChangedPair (FuncInfo.mk ("a") ("x.go") ("F") ("") ("()") true 1 3 3)
      (FuncInfo.mk ("a") ("x.go") ("F") ("") ("(y int)") true 1 3 3) = true ∧
    (FuncInfo.mk ("a") ("x.go") ("F") ("") ("()") true 1 3 3,
        FuncInfo.mk ("a") ("x.go") ("F") ("") ("(y int)") true 1 3 3) ∈
      (diffFuncs
        ([(FuncKey.mk ("a") ("") ("F"),
          FuncInfo.mk ("a") ("x.go") ("F") ("") ("()") true 1 3 3)])
        ([(FuncKey.mk ("a") ("") ("F"),
          FuncInfo.mk ("a") ("x.go") ("F") ("") ("(y int)") true 1 3 3)])).ChangedFuncs :=
  ⟨by decide, by decide, by decide, by decide, by decide,
    (diffFuncs_classifies
      ([(FuncKey.mk ("a") ("") ("F"),
        FuncInfo.mk ("a") ("x.go") ("F") ("") ("()") true 1 3 3)])
      ([(FuncKey.mk ("a") ("") ("F"),
        FuncInfo.mk ("a") ("x.go") ("F") ("") ("(y int)") true 1 3 3)])
      (by decide) (by decide)
      (FuncKey.mk ("a") ("") ("F"))
      (FuncInfo.mk ("a") ("x.go") ("F") ("") ("()") true 1 3 3)
      (by decide)).2.1
      (FuncInfo.mk ("a") ("x.go") ("F") ("") ("(y int)") true 1 3 3)
      (by decide) (by decide)⟩

/-- C2: for well-formed inventories, the key sets classified new, removed
and changed are pairwise disjoint, and every key in the union of the two
inventories' key sets falls into exactly one of the four classes new,
removed, changed, unchanged. -/
theorem diffFuncs_partition (f t : FuncSet) (hf : FSWF f) (ht : FSWF t) (k : FuncKey) :
    (¬ (inNewKeys f t k ∧ inRemovedKeys f t k)) ∧
    (¬ (inNewKeys f t k ∧ inChangedKeys f t k)) ∧
    (¬ (inRemovedKeys f t k ∧ inChangedKeys f t k)) ∧
    (k ∈ f.map (fun kv => kv.1) ∨ k ∈ t.map (fun kv => kv.1) →
      (inNewKeys f t k ∧ ¬ inRemovedKeys f t k ∧ ¬ inChangedKeys f t k ∧
        ¬ unchangedKey f t k) ∨
      (¬ inNewKeys f t k ∧ inRemovedKeys f t k ∧ ¬ inChangedKeys f t k ∧
        ¬ unchangedKey f t k) ∨
      (¬ inNewKeys f t k ∧ ¬ inRemovedKeys f t k ∧ inChangedKeys f t k ∧
        ¬ unchangedKey f t k) ∨
      (¬ inNewKeys f t k ∧ ¬ inRemovedKeys f t k ∧ ¬ inChangedKeys f t k ∧
        unchangedKey f t k)) := by
  obtain ⟨hfc, hfnd⟩ := hf
  obtain ⟨htc, htnd⟩ := ht
  rw [inNewKeys_iff hfc, inRemovedKeys_iff htc, inChangedKeys_iff hfc hfnd]
  unfold unchangedKey
  rw [← lookupFS_isSome_iff_mem_keys, ← lookupFS_isSome_iff_mem_keys]
  rcases hF : lookupFS f k with - | i <;> rcases hT : lookupFS t k with - | ti
  · refine ⟨by simp, by simp, by simp, ?_⟩
    intro h
    rcases h with h | h <;> simp at h
  · refine ⟨by simp, by simp, by simp, ?_⟩
    intro h
    refine Or.inr (Or.inl ?_)
    simp
  · refine ⟨by simp, by simp, by simp, ?_⟩
    intro h
    refine Or.inl ?_
    simp
  · refine ⟨by simp, by simp, by simp, ?_⟩
    intro h
    by_cases hch : isChangedPair i ti = true
    · refine Or.inr (Or.inr (Or.inl ?_))
      simp [hch]
    · refine Or.inr (Or.inr (Or.inr ?_))
      simp only [Bool.not_eq_true] at hch
      simp [hch]

theorem diffFuncs_partition_witness :
    FSWF ([(FuncKey.mk ("a") ("") ("F"),
      FuncInfo.mk ("a") ("x.go") ("F") ("") ("()") true 1 3 3)]) ∧
    FSWF ([] : FuncSet) ∧
    (FuncKey.mk ("a") ("") ("F") ∈
        ([(FuncKey.mk ("a") ("") ("F"),
          FuncInfo.mk ("a") ("x.go") ("F") ("") ("()") true 1 3 3)] : FuncSet).map
          (fun kv => kv.1) ∨
      FuncKey.mk ("a") ("") ("F") ∈ (([] : FuncSet)).map (fun kv => kv.1)) ∧
    ((inNewKeys
        ([(FuncKey.mk ("a") ("") ("F"),
          FuncInfo.mk ("a") ("x.go") ("F") ("") ("()") true 1 3 3)]) ([])
        (FuncKey.mk ("a") ("") ("F")) ∧
      ¬ inRemovedKeys
        ([(FuncKey.mk ("a") ("") ("F"),
          FuncInfo.mk ("a") ("x.go") ("F") ("") ("()") true 1 3 3)]) ([])
        (FuncKey.mk ("a") ("") ("F")) ∧
      ¬ inChangedKeys
        ([(FuncKey.mk ("a") ("") ("F"),
          FuncInfo.mk ("a") ("x.go") ("F") ("") ("()") true 1 3 3)]) ([])
        (FuncKey.mk ("a") ("") ("F")) ∧
      ¬ unchangedKey
        ([(FuncKey.mk ("a") ("") ("F"),
          FuncInfo.mk ("a") ("x.go") ("F") ("") ("()") true 1 3 3)]) ([])
        (FuncKey.mk ("a") ("") ("F"))) ∨
      (¬ inNewKeys
        ([(FuncKey.mk ("a") ("") ("F"),
          FuncInfo.mk ("a") ("x.go") ("F") ("") ("()") true 1 3 3)]) ([])
        (FuncKey.mk ("a") ("") ("F")) ∧
      inRemovedKeys
        ([(FuncKey.mk ("a") ("") ("F"),
          FuncInfo.mk ("a") ("x.go") ("F") ("") ("()") true 1 3 3)]) ([])
        (FuncKey.mk ("a") ("") ("F")) ∧
      ¬ inChangedKeys
        ([(FuncKey.mk ("a") ("") ("F"),
          FuncInfo.mk ("a") ("x.go") ("F") ("") ("()") true 1 3 3)]) ([])
        (FuncKey.mk ("a") ("") ("F")) ∧
      ¬ unchangedKey
        ([(FuncKey.mk ("a") ("") ("F"),
          FuncInfo.mk ("a") ("x.go") ("F") ("") ("()") true 1 3 3)]) ([])
        (FuncKey.mk ("a") ("") ("F"))) ∨
      (¬ inNewKeys
        ([(FuncKey.mk ("a") ("") ("F"),
          FuncInfo.mk ("a") ("x.go") ("F") ("") ("()") true 1 3 3)]) ([])
        (FuncKey.mk ("a") ("") ("F")) ∧
      ¬ inRemovedKeys
        ([(FuncKey.mk ("a") ("") ("F"),
          FuncInfo.mk ("a") ("x.go") ("F") ("") ("()") true 1 3 3)]) ([])
        (FuncKey.mk ("a") ("") ("F")) ∧
      inChangedKeys
        ([(FuncKey.mk ("a") ("") ("F"),
          FuncInfo.mk ("a") ("x.go") ("F") ("") ("()") true 1 3 3)]) ([])
        (FuncKey.mk ("a") ("") ("F")) ∧
      ¬ unchangedKey
        ([(FuncKey.mk ("a") ("") ("F"),
          FuncInfo.mk ("a") ("x.go") ("F") ("") ("()") true 1 3 3)]) ([])
        (FuncKey.mk ("a") ("") ("F"))) ∨
      (¬ inNewKeys
        ([(FuncKey.mk ("a") ("") ("F"),
          FuncInfo.mk ("a") ("x.go") ("F") ("") ("()") true 1 3 3)]) ([])
        (FuncKey.mk ("a") ("") ("F")) ∧
      ¬ inRemovedKeys
        ([(FuncKey.mk ("a") ("") ("F"),
          FuncInfo.mk ("a") ("x.go") ("F") ("") ("()") true 1 3 3)]) ([])
        (FuncKey.mk ("a") ("") ("F")) ∧
      ¬ inChangedKeys
        ([(FuncKey.mk ("a") ("") ("F"),
          FuncInfo.mk ("a") ("x.go") ("F") ("") ("()") true 1 3 3)]) ([])
        (FuncKey.mk ("a") ("") ("F")) ∧
      unchangedKey
        ([(FuncKey.mk ("a") ("") ("F"),
          FuncInfo.mk ("a") ("x.go") ("F") ("") ("()") true 1 3 3)]) ([])
        (FuncKey.mk ("a") ("") ("F")))) :=
  ⟨by decide, by decide, by decide,
    (diffFuncs_partition
      ([(FuncKey.mk ("a") ("") ("F"),
        FuncInfo.mk ("a") ("x.go") ("F") ("") ("()") true 1 3 3)])
      ([]) (by decide) (by decide)
      (FuncKey.mk ("a") ("") ("F"))).2.2.2 (by decide)⟩

/-- C8: the per-package counters of a diff are keyed by the package of the
record counted — the from-side record for the new and changed counts (a
changed pair is counted under its from-side component's package) and the
stored to-side record for the removed count — and, for each of the three
classes, the counters summed over the (duplicate-free) stats entries equal
the total number of declarations in that class.  The records in
`RemovedFuncs` are exactly to-side entries whose key is absent from the
from-inventory. -/
theorem diffFuncs_pkgStats (f t : FuncSet) (p : String) :
    ((statOf (diffFuncs f t).PkgStats p).New =
      (((diffFuncs f t).NewFuncs.filter (fun i => i.Package == p)).length : Int)) ∧
    ((statOf (diffFuncs f t).PkgStats p).Changed =
      (((diffFuncs f t).ChangedFuncs.filter
        (fun pr => pr.1.Package == p)).length : Int)) ∧
    ((statOf (diffFuncs f t).PkgStats p).Removed =
      (((diffFuncs f t).RemovedFuncs.filter (fun i => i.Package == p)).length : Int)) ∧
    (∀ j ∈ (diffFuncs f t).RemovedFuncs, ∃ k, (k, j) ∈ t ∧ lookupFS f k = none) ∧
    sumBy (fun s => s.New) (diffFuncs f t).PkgStats =
      ((diffFuncs f t).NewFuncs.length : Int) ∧
    sumBy (fun s => s.Removed) (diffFuncs f t).PkgStats =
      ((diffFuncs f t).RemovedFuncs.length : Int) ∧
    sumBy (fun s => s.Changed) (diffFuncs f t).PkgStats =
      ((diffFuncs f t).ChangedFuncs.length : Int) ∧
    ((diffFuncs f t).PkgStats.map (fun e => e.1)).Nodup := by
  obtain ⟨hN, hR, hC, hsN, hsR, hsC, hnd⟩ := statsInvariant_diffFuncs f t
  exact ⟨hN p, hC p, hR p, fun j hj => mem_removedList.mp hj, hsN, hsR, hsC, hnd⟩

/-- C9: the diff engine and renderer are total on structurally valid input:
diffing two empty inventories yields the all-zero `DiffResult` (zero
totals, empty new/removed/changed lists, empty per-package stats), and
rendering it still produces a (nonempty) summary document for every choice
of refs, flags, output directory and snapshot-provider oracle. -/
theorem diff_render_empty_total :
    diffFuncs [] [] =
      { NewFuncs := [], RemovedFuncs := [], ChangedFuncs := [],
        FromTotal := 0, ToTotal := 0, PkgStats := [] } ∧
    ∀ (gitShow : String → String → Option String) (fromRef toRef : String)
      (summaryOnly : Bool) (outDir : String),
      buildMarkdownReport gitShow fromRef toRef [] [] summaryOnly outDir ≠ "" := by
  constructor
  · rfl
  · intro g fr tr so od
    unfold buildMarkdownReport
    apply string_append_ne_empty_left
    unfold reportBase
    apply string_append_ne_empty_left
    apply string_append_ne_empty_left
    apply string_append_ne_empty_left
    apply string_append_ne_empty_left
    apply string_append_ne_empty_left
    apply string_append_ne_empty_left
    apply string_append_ne_empty_left
    apply string_append_ne_empty_left
    decide

end FuncDiff
